import Mathlib

/-!
Shallow embedding of the image filtering core of `src/app.js`
(kernel construction, separable Gaussian blur, unsharp-mask sharpen,
pipeline orchestration), together with theorems settling the spec claims.

Modelling conventions:
* JavaScript numbers are modelled as exact real numbers (`ℝ`) where the
  code computes with the Gaussian `Math.exp`, and as exact rationals (`ℚ`)
  where the code uses only field operations (the sharpen stage and the
  sharpen amount).  Float64/Float32 rounding noise is not modelled; the
  spec states its numeric properties up to floating-point tolerance.
* `Uint8ClampedArray` / `Float32Array` flat buffers are modelled as Lean
  lists, written index by index exactly as the source loops do, via
  `List.set` (which, like a JavaScript typed array, silently discards an
  out-of-range write).
* Out-of-range reads are modelled by `List.getD _ 0`.  Every theorem below
  either supplies well-formedness hypotheses that keep all reads in range,
  or (for the size-0 kernel counterexample) produces the same output byte
  as the NaN-propagation of the real program.
-/

namespace App

/-- `clamp(value, min, max)` from `src/app.js` line 134:
`Math.max(min, Math.min(max, value))`, on integers. -/
def clamp (value lo hi : ℤ) : ℤ :=
  max lo (min hi value)

/-- `Math.round` (round half toward positive infinity), used by
`sharpenImage` on a rational value. -/
def jsRound (x : ℚ) : ℤ :=
  ⌊x + 1 / 2⌋

/-- Round half to even on a real number, as specified for conversion of an
ECMAScript number to a `Uint8ClampedArray` element. -/
noncomputable def roundHalfEven (x : ℝ) : ℤ :=
  if x - ⌊x⌋ < 1 / 2 then ⌊x⌋
  else if 1 / 2 < x - ⌊x⌋ then ⌊x⌋ + 1
  else if Even ⌊x⌋ then ⌊x⌋ else ⌊x⌋ + 1

/-- Conversion of a number to a `Uint8ClampedArray` sample
(ECMAScript ToUint8Clamp): clamp to `[0, 255]`, round half to even. -/
noncomputable def toUint8Clamp (x : ℝ) : ℕ :=
  if x ≤ 0 then 0
  else if 255 ≤ x then 255
  else (roundHalfEven x).toNat

/-! ### Flat-buffer write loops

The source fills its output arrays pixel by pixel: for each scanline index
`p = y*width + x` it writes the four samples `4p .. 4p+3`.  `writePixel`
is one iteration, `fillPixels` the whole (flattened) double loop: for
`p < n` the pair `(p / width, p % width)` enumerates exactly the `(y, x)`
pairs of the nested source loops, in the same order. -/

/-- Write the four samples of pixel `p` into the flat buffer `l`,
with `F p c` the value of channel `c`. -/
def writePixel (F : ℕ → ℕ → α) (l : List α) (p : ℕ) : List α :=
  ((((l.set (4 * p) (F p 0)).set (4 * p + 1) (F p 1)).set
      (4 * p + 2) (F p 2)).set (4 * p + 3) (F p 3))

/-- Fill pixels `0 .. n-1` of the flat buffer `init`. -/
def fillPixels (n : ℕ) (F : ℕ → ℕ → α) (init : List α) : List α :=
  (List.range n).foldl (writePixel F) init

theorem getD_set_self (l : List α) (i : ℕ) (v d : α) (h : i < l.length) :
    (l.set i v).getD i d = v := by
  simp [List.getD_eq_getElem?_getD, List.getElem?_set_self', h]

theorem getD_set_ne (l : List α) (i j : ℕ) (v d : α) (h : i ≠ j) :
    (l.set i v).getD j d = l.getD j d := by
  simp [List.getD_eq_getElem?_getD, List.getElem?_set_ne h]

theorem getD_of_length_le (l : List α) (i : ℕ) (d : α) (h : l.length ≤ i) :
    l.getD i d = d := by
  simp [List.getD_eq_getElem?_getD, List.getElem?_eq_none h]

theorem writePixel_length (F : ℕ → ℕ → α) (l : List α) (p : ℕ) :
    (writePixel F l p).length = l.length := by
  simp [writePixel]

theorem writePixel_getD_self (F : ℕ → ℕ → α) (l : List α) (p c : ℕ) (d : α)
    (hc : c < 4) (hlen : 4 * p + c < l.length) :
    (writePixel F l p).getD (4 * p + c) d = F p c := by
  unfold writePixel
  interval_cases c
  · simp only [Nat.add_zero] at hlen ⊢
    rw [getD_set_ne _ _ _ _ _ (by omega), getD_set_ne _ _ _ _ _ (by omega),
        getD_set_ne _ _ _ _ _ (by omega)]
    exact getD_set_self _ _ _ _ (by omega)
  · rw [getD_set_ne _ _ _ _ _ (by omega), getD_set_ne _ _ _ _ _ (by omega)]
    exact getD_set_self _ _ _ _ (by simp only [List.length_set]; omega)
  · rw [getD_set_ne _ _ _ _ _ (by omega)]
    exact getD_set_self _ _ _ _ (by simp only [List.length_set]; omega)
  · exact getD_set_self _ _ _ _ (by simp only [List.length_set]; omega)

theorem writePixel_getD_other (F : ℕ → ℕ → α) (l : List α) (p q c : ℕ) (d : α)
    (hc : c < 4) (hpq : q ≠ p) :
    (writePixel F l p).getD (4 * q + c) d = l.getD (4 * q + c) d := by
  unfold writePixel
  rw [getD_set_ne _ _ _ _ _ (by omega), getD_set_ne _ _ _ _ _ (by omega),
      getD_set_ne _ _ _ _ _ (by omega), getD_set_ne _ _ _ _ _ (by omega)]

theorem fillPixels_length (n : ℕ) (F : ℕ → ℕ → α) (init : List α) :
    (fillPixels n F init).length = init.length := by
  suffices h : ∀ (l : List ℕ) (s : List α), (l.foldl (writePixel F) s).length = s.length by
    exact h (List.range n) init
  intro l
  induction l with
  | nil => intro s; rfl
  | cons a l ih =>
    intro s
    simp only [List.foldl_cons, ih, writePixel_length]

theorem fillPixels_getD (n : ℕ) (F : ℕ → ℕ → α) (init : List α) (p c : ℕ) (d : α)
    (hc : c < 4) (hp : p < n) (hlen : 4 * p + c < init.length) :
    (fillPixels n F init).getD (4 * p + c) d = F p c := by
  induction n with
  | zero => omega
  | succ m ih =>
    have hstep : fillPixels (m + 1) F init = writePixel F (fillPixels m F init) m := by
      simp [fillPixels, List.range_succ]
    rw [hstep]
    rcases Nat.lt_or_ge p m with hpm | hpm
    · rw [writePixel_getD_other _ _ _ _ _ _ hc (by omega)]
      exact ih hpm
    · have hpe : p = m := by omega
      subst hpe
      exact writePixel_getD_self _ _ _ _ _ hc (by rw [fillPixels_length]; exact hlen)

/-! ### Single-index fill loops and fold-to-sum bridges -/

/-- `for (j = 0; j < n; j++) l[j] = f j` on a flat buffer, with typed-array
write semantics (an out-of-range write is discarded). -/
def fillList (n : ℕ) (f : ℕ → α) (init : List α) : List α :=
  (List.range n).foldl (fun l j => l.set j (f j)) init

theorem fillList_length (n : ℕ) (f : ℕ → α) (init : List α) :
    (fillList n f init).length = init.length := by
  suffices h : ∀ (l : List ℕ) (s : List α),
      (l.foldl (fun t j => t.set j (f j)) s).length = s.length by
    exact h (List.range n) init
  intro l
  induction l with
  | nil => intro s; rfl
  | cons a l ih => intro s; simp only [List.foldl_cons, ih, List.length_set]

theorem fillList_getD (n : ℕ) (f : ℕ → α) (init : List α) (j : ℕ) (d : α)
    (hj : j < n) (hlen : j < init.length) :
    (fillList n f init).getD j d = f j := by
  induction n with
  | zero => omega
  | succ m ih =>
    have hstep : fillList (m + 1) f init = (fillList m f init).set m (f m) := by
      simp [fillList, List.range_succ]
    rw [hstep]
    rcases Nat.lt_or_ge j m with hjm | hjm
    · rw [getD_set_ne _ _ _ _ _ (by omega)]
      exact ih hjm
    · have hje : j = m := by omega
      subst hje
      exact getD_set_self _ _ _ _ (by rw [fillList_length]; exact hlen)

theorem foldl_add_eq_sum {M : Type} [AddCommMonoid M] (f : ℕ → M) (n : ℕ) (a : M) :
    (List.range n).foldl (fun acc j => acc + f j) a = a + ∑ j ∈ Finset.range n, f j := by
  induction n with
  | zero => simp
  | succ m ih =>
    rw [List.range_succ, List.foldl_append, ih, Finset.sum_range_succ]
    simp [add_assoc]

theorem getD_map_of_lt (f : α → β) (l : List α) (i : ℕ) (d : β) (d' : α)
    (h : i < l.length) :
    (l.map f).getD i d = f (l.getD i d') := by
  rw [List.getD_eq_getElem (l.map f) d (by simpa using h), List.getD_eq_getElem l d' h]
  simp

/-! ### Kernel construction (`buildKernel`, `src/app.js` lines 115-132) -/

/-- The unnormalized Gaussian value `Math.exp(-(i*i) / (2*sigma2))` computed
inside the `buildKernel` loop for offset `i`. -/
noncomputable def gaussWeight (sigma : ℝ) (i : ℤ) : ℝ :=
  Real.exp (-((i : ℝ) * (i : ℝ)) / (2 * (sigma * sigma)))

/-- `buildKernel(size, sigma)` from `src/app.js`: `radius = floor(size/2)`;
a `Float32Array(size)` is filled at indices `i + radius` for
`i = -radius .. radius` (the write at an out-of-range index is discarded,
exactly as on a JavaScript typed array) while `sum` accumulates every
computed weight; finally each stored entry is divided by `sum`.
The loop over `i ∈ [-radius, radius]` is rendered as a loop over
`j = i + radius ∈ [0, 2*radius]`. -/
noncomputable def buildKernel (size : ℕ) (sigma : ℝ) : List ℝ × ℕ :=
  let radius := size / 2
  let built := (List.range (2 * radius + 1)).foldl
    (fun (p : List ℝ × ℝ) j =>
      (p.1.set j (gaussWeight sigma ((j : ℤ) - (radius : ℤ))),
       p.2 + gaussWeight sigma ((j : ℤ) - (radius : ℤ))))
    (List.replicate size 0, 0)
  (built.1.map (fun v => v / built.2), radius)

/-- The weight the `buildKernel` loop computes at array index `j`
(offset `i = j - radius`). -/
noncomputable def kernelWeight (size : ℕ) (sigma : ℝ) (j : ℕ) : ℝ :=
  gaussWeight sigma ((j : ℤ) - ((size / 2 : ℕ) : ℤ))

/-- The partial sums of the weights computed by the `buildKernel` loop. -/
noncomputable def kernelWeightSum (size : ℕ) (sigma : ℝ) (n : ℕ) : ℝ :=
  ∑ j ∈ Finset.range n, kernelWeight size sigma j

theorem foldl_set_add_split (w : ℕ → ℝ) (l : List ℕ) (k : List ℝ) (s : ℝ) :
    l.foldl (fun (p : List ℝ × ℝ) j => (p.1.set j (w j), p.2 + w j)) (k, s) =
      (l.foldl (fun t j => t.set j (w j)) k, l.foldl (fun a j => a + w j) s) := by
  induction l generalizing k s with
  | nil => rfl
  | cons a l ih => simp only [List.foldl_cons, ih]

theorem buildKernel_eq (size : ℕ) (sigma : ℝ) :
    buildKernel size sigma =
      ((fillList (2 * (size / 2) + 1) (kernelWeight size sigma)
          (List.replicate size 0)).map
        (fun v => v / kernelWeightSum size sigma (2 * (size / 2) + 1)),
       size / 2) := by
  simp only [buildKernel, fillList, kernelWeight, kernelWeightSum]
  rw [foldl_set_add_split]
  rw [foldl_add_eq_sum (fun j => gaussWeight sigma ((j : ℤ) - ((size / 2 : ℕ) : ℤ)))]
  rw [zero_add]

theorem kernelWeight_pos (size : ℕ) (sigma : ℝ) (j : ℕ) :
    0 < kernelWeight size sigma j :=
  Real.exp_pos _

theorem kernelWeightSum_pos (size : ℕ) (sigma : ℝ) (n : ℕ) (hn : 0 < n) :
    0 < kernelWeightSum size sigma n :=
  Finset.sum_pos (fun j _ => kernelWeight_pos size sigma j)
    (Finset.nonempty_range_iff.mpr (by omega))

theorem buildKernel_length (size : ℕ) (sigma : ℝ) :
    (buildKernel size sigma).1.length = size := by
  rw [buildKernel_eq]
  simp [fillList_length]

theorem buildKernel_radius (size : ℕ) (sigma : ℝ) :
    (buildKernel size sigma).2 = size / 2 := by
  rw [buildKernel_eq]

theorem buildKernel_getD (size : ℕ) (sigma : ℝ) (j : ℕ) (hj : j < size) :
    (buildKernel size sigma).1.getD j 0 =
      kernelWeight size sigma j / kernelWeightSum size sigma (2 * (size / 2) + 1) := by
  rw [buildKernel_eq]
  have hlen : j < (fillList (2 * (size / 2) + 1) (kernelWeight size sigma)
      (List.replicate size 0)).length := by
    rw [fillList_length, List.length_replicate]; exact hj
  rw [getD_map_of_lt _ _ _ _ 0 hlen]
  rw [fillList_getD _ _ _ _ _ (by omega) (by rw [List.length_replicate]; exact hj)]

theorem buildKernel_sum_odd (size : ℕ) (sigma : ℝ) (hodd : Odd size) :
    ∑ j ∈ Finset.range size, (buildKernel size sigma).1.getD j 0 = 1 := by
  obtain ⟨r, hr⟩ := hodd
  have hsz : 2 * (size / 2) + 1 = size := by omega
  have hpos : 0 < kernelWeightSum size sigma size :=
    kernelWeightSum_pos size sigma size (by omega)
  calc ∑ j ∈ Finset.range size, (buildKernel size sigma).1.getD j 0
      = ∑ j ∈ Finset.range size,
          kernelWeight size sigma j / kernelWeightSum size sigma (2 * (size / 2) + 1) := by
        refine Finset.sum_congr rfl (fun j hj => ?_)
        exact buildKernel_getD size sigma j (Finset.mem_range.mp hj)
    _ = (∑ j ∈ Finset.range size, kernelWeight size sigma j) /
          kernelWeightSum size sigma (2 * (size / 2) + 1) := by
        rw [Finset.sum_div]
    _ = 1 := by
        rw [hsz]
        show kernelWeightSum size sigma size / kernelWeightSum size sigma size = 1
        exact div_self (ne_of_gt hpos)

/-! ### Pixel buffers and the two pipeline stages -/

/-- An `ImageData` value: width, height and the flat RGBA sample buffer
(row-major, 4 samples per pixel, each sample an 8-bit value). -/
structure ImageData where
  width : ℕ
  height : ℕ
  data : List ℕ

/-- The PixelBuffer invariant: `data.length = width*height*4` and every
sample fits in 8 bits. -/
def WellFormed (img : ImageData) : Prop :=
  img.data.length = 4 * (img.height * img.width) ∧ ∀ v ∈ img.data, v ≤ 255

/-- The accumulation loop `for (k = -radius; k <= radius; k++) acc += sample(k) * kernel[k + radius]`
shared by the two blur passes, rendered over `j = k + radius ∈ [0, 2*radius]`.
`kern.getD j 0` models the typed-array read `kernel[j]`. -/
noncomputable def convSum (kern : List ℝ) (radius : ℕ) (sample : ℤ → ℝ) : ℝ :=
  (List.range (2 * radius + 1)).foldl
    (fun acc (j : ℕ) => acc + sample ((j : ℤ) - (radius : ℤ)) * kern.getD j 0) 0

theorem convSum_eq_sum (kern : List ℝ) (radius : ℕ) (sample : ℤ → ℝ) :
    convSum kern radius sample =
      ∑ j ∈ Finset.range (2 * radius + 1),
        sample ((j : ℤ) - (radius : ℤ)) * kern.getD j 0 := by
  unfold convSum
  rw [foldl_add_eq_sum (fun j => sample ((j : ℤ) - (radius : ℤ)) * kern.getD j 0)]
  rw [zero_add]

/-- Pass 1 of `gaussianBlur` (`src/app.js` lines 144-168): for the pixel
with flat index `p` (`y = p / width`, `x = p % width`) and channel `c`,
convolve the row along x with the sample index clamped to `[0, width-1]`,
accumulating in floating point. -/
noncomputable def blurTempF (img : ImageData) (size : ℕ) (sigma : ℝ) (p c : ℕ) : ℝ :=
  convSum (buildKernel size sigma).1 (buildKernel size sigma).2 (fun k =>
    let y := p / img.width
    let x := p % img.width
    let px := (clamp ((x : ℤ) + k) 0 ((img.width : ℤ) - 1)).toNat
    ((img.data.getD ((y * img.width + px) * 4 + c) 0 : ℕ) : ℝ))

/-- The floating-point intermediate buffer `temp` filled by pass 1. -/
noncomputable def blurTemp (img : ImageData) (size : ℕ) (sigma : ℝ) : List ℝ :=
  fillPixels (img.height * img.width) (blurTempF img size sigma)
    (List.replicate img.data.length 0)

/-- Pass 2 of `gaussianBlur` (`src/app.js` lines 170-194): convolve `temp`
along y with the sample index clamped to `[0, height-1]`, then convert to
an 8-bit sample. -/
noncomputable def blurOutF (img : ImageData) (size : ℕ) (sigma : ℝ) (p c : ℕ) : ℕ :=
  toUint8Clamp (convSum (buildKernel size sigma).1 (buildKernel size sigma).2 (fun k =>
    let y := p / img.width
    let x := p % img.width
    let py := (clamp ((y : ℤ) + k) 0 ((img.height : ℤ) - 1)).toNat
    (blurTemp img size sigma).getD ((py * img.width + x) * 4 + c) 0))

/-- `gaussianBlur(imageData, size, sigma)` from `src/app.js` lines 138-197:
one kernel from `buildKernel`; pass 1 convolves each row along x into the
floating-point `temp` buffer; pass 2 convolves `temp` along y and stores
through the `Uint8ClampedArray` conversion into a fresh output buffer.
The nested `y`/`x` loops are rendered flattened over `p = y*width + x`. -/
noncomputable def gaussianBlur (img : ImageData) (size : ℕ) (sigma : ℝ) : ImageData :=
  ⟨img.width, img.height,
   fillPixels (img.height * img.width) (blurOutF img size sigma)
     (List.replicate img.data.length 0)⟩

/-- The per-channel body of the `sharpenImage` loop (`src/app.js` lines
205-222): for channel `c < 3`,
`center * (1 + amount*4) - amount*(left+right+top+bottom)` with the four
4-connected neighbors read at clamped coordinates, then
`clamp(Math.round(sharpened), 0, 255)`; for `c = 3` the alpha sample is
copied. -/
def sharpOutF (img : ImageData) (amount : ℚ) (p c : ℕ) : ℕ :=
  let y := p / img.width
  let x := p % img.width
  let idx := (y * img.width + x) * 4
  if c = 3 then img.data.getD (idx + 3) 0
  else
    let center : ℚ := img.data.getD (idx + c) 0
    let left : ℚ := img.data.getD
      ((y * img.width + (clamp ((x : ℤ) - 1) 0 ((img.width : ℤ) - 1)).toNat) * 4 + c) 0
    let right : ℚ := img.data.getD
      ((y * img.width + (clamp ((x : ℤ) + 1) 0 ((img.width : ℤ) - 1)).toNat) * 4 + c) 0
    let top : ℚ := img.data.getD
      (((clamp ((y : ℤ) - 1) 0 ((img.height : ℤ) - 1)).toNat * img.width + x) * 4 + c) 0
    let bottom : ℚ := img.data.getD
      (((clamp ((y : ℤ) + 1) 0 ((img.height : ℤ) - 1)).toNat * img.width + x) * 4 + c) 0
    (clamp (jsRound (center * (1 + amount * 4) - amount * (left + right + top + bottom)))
      0 255).toNat

/-- `sharpenImage(imageData, amount)` from `src/app.js` lines 199-225:
early return of the input object itself when `amount <= 0`; otherwise the
per-pixel loop fills a fresh output buffer. -/
def sharpenImage (img : ImageData) (amount : ℚ) : ImageData :=
  if amount ≤ 0 then img
  else
    ⟨img.width, img.height,
     fillPixels (img.height * img.width) (sharpOutF img amount)
       (List.replicate img.data.length 0)⟩

/-! ### Spec-side definitions

These definitions follow the words of the specification (clamp-to-edge
boundary policy, two 1-D passes, the sharpen formula).  They are compared
with the source-side definitions above by the refinement theorems. -/

/-- Spec wording: a sample index outside `[0, n-1]` is clamped to the
nearest valid index (no wraparound, no zero-padding). -/
def specClampIdx (i : ℤ) (n : ℕ) : ℕ :=
  if i < 0 then 0 else if (n : ℤ) - 1 < i then n - 1 else i.toNat

theorem clamp_toNat_eq_specClampIdx (i : ℤ) (n : ℕ) :
    (clamp i 0 ((n : ℤ) - 1)).toNat = specClampIdx i n := by
  unfold clamp specClampIdx
  split_ifs <;> omega

/-- Spec wording for pass 1: the intermediate floating-point value at
`(x, y)`, channel `c`: convolve the row along the x-axis, offsets
`k ∈ [-radius, radius]`, sample index clamped to `[0, width-1]`. -/
noncomputable def specBlurTemp (img : ImageData) (kern : List ℝ) (radius : ℕ)
    (x y c : ℕ) : ℝ :=
  ∑ k ∈ Finset.Icc (-(radius : ℤ)) (radius : ℤ),
    kern.getD (k + radius).toNat 0 *
      ((img.data.getD
          ((y * img.width + specClampIdx ((x : ℤ) + k) img.width) * 4 + c) 0 : ℕ) : ℝ)

/-- Spec wording for the whole blur: one kernel built by `buildKernel`,
pass 1 along x into a floating-point intermediate of the same shape,
pass 2 along y over that intermediate (sample index clamped to
`[0, height-1]`), and only then the 8-bit conversion. -/
noncomputable def specBlur (img : ImageData) (size : ℕ) (sigma : ℝ) : ImageData :=
  let kern := (buildKernel size sigma).1
  let radius := (buildKernel size sigma).2
  ⟨img.width, img.height,
   (List.range (4 * (img.height * img.width))).map (fun s =>
     let p := s / 4
     let c := s % 4
     let y := p / img.width
     let x := p % img.width
     toUint8Clamp (∑ k ∈ Finset.Icc (-(radius : ℤ)) (radius : ℤ),
       kern.getD (k + radius).toNat 0 *
         specBlurTemp img kern radius x (specClampIdx ((y : ℤ) + k) img.height) c))⟩

/-- Spec wording for the sharpen stage, per pixel and color channel:
`center*(1 + 4*amount) - amount*(left+right+top+bottom)` with 4-connected
neighbors under clamp-to-edge, rounded to the nearest integer and clamped
to `[0, 255]`. -/
def specSharpValue (img : ImageData) (amount : ℚ) (x y c : ℕ) : ℕ :=
  let get := fun (yy xx : ℕ) => ((img.data.getD ((yy * img.width + xx) * 4 + c) 0 : ℕ) : ℚ)
  let center := get y x
  let left := get y (specClampIdx ((x : ℤ) - 1) img.width)
  let right := get y (specClampIdx ((x : ℤ) + 1) img.width)
  let top := get (specClampIdx ((y : ℤ) - 1) img.height) x
  let bottom := get (specClampIdx ((y : ℤ) + 1) img.height) x
  (max 0 (min 255
    ⌊center * (1 + 4 * amount) - amount * (left + right + top + bottom) + 1 / 2⌋)).toNat

theorem sum_Icc_eq_sum_range (r : ℕ) (g : ℤ → ℝ) :
    ∑ k ∈ Finset.Icc (-(r : ℤ)) (r : ℤ), g k =
      ∑ j ∈ Finset.range (2 * r + 1), g ((j : ℤ) - (r : ℤ)) := by
  have hmap : Finset.Icc (-(r : ℤ)) (r : ℤ) =
      (Finset.range (2 * r + 1)).map
        ⟨fun (j : ℕ) => (j : ℤ) - (r : ℤ), fun (a b : ℕ) hab => by
          have h2 : (a : ℤ) - (r : ℤ) = (b : ℤ) - (r : ℤ) := hab
          omega⟩ := by
    ext k
    simp only [Finset.mem_Icc, Finset.mem_map, Finset.mem_range,
      Function.Embedding.coeFn_mk]
    constructor
    · intro hk
      exact ⟨(k + r).toNat, by omega, by omega⟩
    · rintro ⟨a, ha, rfl⟩
      omega
  rw [hmap, Finset.sum_map]
  rfl

/-! ### Facts about the 8-bit conversion -/

theorem toUint8Clamp_le_255 (x : ℝ) : toUint8Clamp x ≤ 255 := by
  unfold toUint8Clamp roundHalfEven
  split_ifs with h1 h2 h3 h4 h5
  · omega
  · omega
  · have : ⌊x⌋ ≤ x := Int.floor_le x
    have hlt : ⌊x⌋ < 255 := Int.floor_lt.mpr (by push_cast; linarith)
    omega
  · have hlt : ⌊x⌋ < 255 := Int.floor_lt.mpr (by push_cast; linarith)
    omega
  · have hlt : ⌊x⌋ < 255 := Int.floor_lt.mpr (by push_cast; linarith)
    omega
  · have hlt : ⌊x⌋ < 255 := Int.floor_lt.mpr (by push_cast; linarith)
    omega

theorem roundHalfEven_intCast (m : ℤ) : roundHalfEven (m : ℝ) = m := by
  unfold roundHalfEven
  rw [Int.floor_intCast]
  rw [if_pos (by norm_num)]

theorem toUint8Clamp_natCast (n : ℕ) (hn : n ≤ 255) : toUint8Clamp (n : ℝ) = n := by
  unfold toUint8Clamp
  split_ifs with h1 h2
  · have h0 : (n : ℝ) = 0 := le_antisymm h1 (by positivity)
    have : n = 0 := by exact_mod_cast h0
    omega
  · have h255 : 255 ≤ n := by exact_mod_cast h2
    omega
  · have hcast : ((n : ℝ)) = ((n : ℤ) : ℝ) := by push_cast; ring
    rw [hcast, roundHalfEven_intCast]
    simp

/-! ### Pipeline orchestration (`runFilter`, `src/app.js` lines 227-259) -/

/-- The UI-side state touched by `runFilter`: the loaded image, the last
filtered image, the buffer currently painted on the output canvas, the
reentrancy flag and the status line. -/
structure UIState where
  originalImageData : Option ImageData
  currentImageData : Option ImageData
  displayed : Option ImageData
  isProcessing : Bool
  status : String

/-- `formatKernel(size)` (`src/app.js` lines 29-34): derives and returns
`sigma = Math.max(0.15, size / 6)` (the label updates are UI-only). -/
noncomputable def formatKernel (size : ℕ) : ℝ :=
  max (0.15 : ℝ) ((size : ℝ) / 6)

/-- The filtering expression inside the `requestAnimationFrame` callback
(`src/app.js` lines 246-247): blur if `size > 1` else pass the buffer
through, then sharpen if `sharpen > 0` else pass through. -/
noncomputable def filterBody (orig : ImageData) (size : ℕ) (sharpen : ℚ) (sigma : ℝ) :
    ImageData :=
  let blurred := if 1 < size then gaussianBlur orig size sigma else orig
  if 0 < sharpen then sharpenImage blurred sharpen else blurred

/-- The `try`/`catch`/`finally` callback body (`src/app.js` lines 244-258).
`exn` abstracts a runtime exception raised during filtering (before
anything is displayed), e.g. an allocation failure: in that case the catch
branch only reports a status message, leaving the displayed buffer and
`currentImageData` untouched; `finally` clears `isProcessing` either way. -/
noncomputable def runFilterCallback (st : UIState) (orig : ImageData) (size : ℕ)
    (sharpen : ℚ) (sigma : ℝ) (exn : Option String) : UIState :=
  match exn with
  | some _ =>
      ⟨st.originalImageData, st.currentImageData, st.displayed, false,
       "Filtering failed. Try smaller settings."⟩
  | none =>
      ⟨st.originalImageData, some (filterBody orig size sharpen sigma),
       some (filterBody orig size sharpen sigma), false, "Filter applied."⟩

/-- `runFilter()` (`src/app.js` lines 227-259): guard on a missing image or
an in-flight run; derive sigma via `formatKernel`; fast path for
`size <= 1 && sharpen <= 0` (re-display the original buffer itself, no
allocation); otherwise set the working state and run the callback. -/
noncomputable def runFilter (st : UIState) (size : ℕ) (sharpen : ℚ)
    (exn : Option String) : UIState :=
  match st.originalImageData with
  | none => st
  | some orig =>
    if st.isProcessing then st
    else
      let sigma := formatKernel size
      if size ≤ 1 ∧ sharpen ≤ 0 then
        ⟨st.originalImageData, some orig, some orig, st.isProcessing, st.status⟩
      else
        runFilterCallback
          ⟨st.originalImageData, st.currentImageData, st.displayed, true, "Filtering..."⟩
          orig size sharpen sigma exn

/-! ### Explicit-heap rendering of the two stages

To settle the in-place-mutation / fresh-buffer claim, the two stages are
re-rendered in state-passing style over an explicit heap of typed arrays:
`arrays` maps an array id to its contents, `next` is the next fresh id.
`new Float32Array(n)` / `new Uint8ClampedArray(n)` become `allocA`
(zero-initialised, fresh id), and every element store in the source loops
becomes a `writeA` on the id being filled.  The fill functions read their
samples from the evolving heap, exactly as the source loops do. -/

structure Store (α : Type) where
  arrays : ℕ → List α
  next : ℕ

/-- Allocate a fresh array of length `n` filled with `v`; returns its id. -/
def allocA (s : Store α) (n : ℕ) (v : α) : ℕ × Store α :=
  (s.next, ⟨fun i => if i = s.next then List.replicate n v else s.arrays i, s.next + 1⟩)

/-- `arrays[aid][idx] = v` (out-of-range writes are discarded, as on a
JavaScript typed array). -/
def writeA (s : Store α) (aid idx : ℕ) (v : α) : Store α :=
  ⟨fun i => if i = aid then (s.arrays aid).set idx v else s.arrays i, s.next⟩

/-- One pixel iteration of a source fill loop: compute the four channel
values from the current heap, then store them into array `dst`. -/
def writePixelS (dst : ℕ) (F : Store α → ℕ → ℕ → α) (s : Store α) (p : ℕ) : Store α :=
  writeA (writeA (writeA (writeA s dst (4 * p) (F s p 0))
    dst (4 * p + 1) (F s p 1)) dst (4 * p + 2) (F s p 2)) dst (4 * p + 3) (F s p 3)

/-- A whole source fill loop over pixels `0 .. n-1`, writing array `dst`. -/
def fillPixelsS (dst : ℕ) (F : Store α → ℕ → ℕ → α) (n : ℕ) (s : Store α) : Store α :=
  (List.range n).foldl (writePixelS dst F) s

theorem writeA_arrays_ne (s : Store α) (aid idx j : ℕ) (v : α) (h : j ≠ aid) :
    (writeA s aid idx v).arrays j = s.arrays j := by
  simp [writeA, h]

theorem writeA_next (s : Store α) (aid idx : ℕ) (v : α) :
    (writeA s aid idx v).next = s.next := rfl

theorem writePixelS_arrays_ne (dst : ℕ) (F : Store α → ℕ → ℕ → α) (s : Store α)
    (p j : ℕ) (h : j ≠ dst) :
    (writePixelS dst F s p).arrays j = s.arrays j := by
  unfold writePixelS
  rw [writeA_arrays_ne _ _ _ _ _ h, writeA_arrays_ne _ _ _ _ _ h,
      writeA_arrays_ne _ _ _ _ _ h, writeA_arrays_ne _ _ _ _ _ h]

theorem writePixelS_next (dst : ℕ) (F : Store α → ℕ → ℕ → α) (s : Store α) (p : ℕ) :
    (writePixelS dst F s p).next = s.next := rfl

theorem fillPixelsS_arrays_ne (dst : ℕ) (F : Store α → ℕ → ℕ → α) (n : ℕ)
    (s : Store α) (j : ℕ) (h : j ≠ dst) :
    (fillPixelsS dst F n s).arrays j = s.arrays j := by
  suffices hgen : ∀ (l : List ℕ) (s : Store α),
      (l.foldl (writePixelS dst F) s).arrays j = s.arrays j by
    exact hgen (List.range n) s
  intro l
  induction l with
  | nil => intro s; rfl
  | cons a l ih =>
    intro s
    simp only [List.foldl_cons, ih]
    exact writePixelS_arrays_ne dst F s a j h

theorem fillPixelsS_next (dst : ℕ) (F : Store α → ℕ → ℕ → α) (n : ℕ) (s : Store α) :
    (fillPixelsS dst F n s).next = s.next := by
  suffices hgen : ∀ (l : List ℕ) (s : Store α),
      (l.foldl (writePixelS dst F) s).next = s.next by
    exact hgen (List.range n) s
  intro l
  induction l with
  | nil => intro s; rfl
  | cons a l ih =>
    intro s
    simp only [List.foldl_cons, ih]
    rfl

/-- `gaussianBlur` in heap-passing style: `src` is the id of the input
buffer; `temp` and the output are freshly allocated; the input array is
only read.  Returns the id of the output buffer and the final heap. -/
noncomputable def gaussianBlurS (s0 : Store ℝ) (src width height size : ℕ)
    (sigma : ℝ) : ℕ × Store ℝ :=
  let kern := (buildKernel size sigma).1
  let radius := (buildKernel size sigma).2
  let len := (s0.arrays src).length
  let t := (allocA s0 len 0).1
  let s1 := (allocA s0 len 0).2
  let s2 := fillPixelsS t (fun s p c =>
      let y := p / width
      let x := p % width
      convSum kern radius (fun k =>
        let px := (clamp ((x : ℤ) + k) 0 ((width : ℤ) - 1)).toNat
        (s.arrays src).getD ((y * width + px) * 4 + c) 0)) (height * width) s1
  let o := (allocA s2 len 0).1
  let s3 := (allocA s2 len 0).2
  let s4 := fillPixelsS o (fun s p c =>
      let y := p / width
      let x := p % width
      ((toUint8Clamp (convSum kern radius (fun k =>
        let py := (clamp ((y : ℤ) + k) 0 ((height : ℤ) - 1)).toNat
        (s.arrays t).getD ((py * width + x) * 4 + c) 0)) : ℕ) : ℝ)) (height * width) s3
  (o, s4)

/-- `sharpenImage` in heap-passing style: when `amount <= 0` the source
returns the input object itself (`return imageData`), i.e. the input id;
otherwise the output is freshly allocated and the input only read. -/
def sharpenImageS (s0 : Store ℚ) (src width height : ℕ) (amount : ℚ) :
    ℕ × Store ℚ :=
  if amount ≤ 0 then (src, s0)
  else
    let len := (s0.arrays src).length
    let o := (allocA s0 len 0).1
    let s1 := (allocA s0 len 0).2
    let s2 := fillPixelsS o (fun s p c =>
      let y := p / width
      let x := p % width
      let idx := (y * width + x) * 4
      if c = 3 then (s.arrays src).getD (idx + 3) 0
      else
        let center := (s.arrays src).getD (idx + c) 0
        let left := (s.arrays src).getD
          ((y * width + (clamp ((x : ℤ) - 1) 0 ((width : ℤ) - 1)).toNat) * 4 + c) 0
        let right := (s.arrays src).getD
          ((y * width + (clamp ((x : ℤ) + 1) 0 ((width : ℤ) - 1)).toNat) * 4 + c) 0
        let top := (s.arrays src).getD
          (((clamp ((y : ℤ) - 1) 0 ((height : ℤ) - 1)).toNat * width + x) * 4 + c) 0
        let bottom := (s.arrays src).getD
          (((clamp ((y : ℤ) + 1) 0 ((height : ℤ) - 1)).toNat * width + x) * 4 + c) 0
        ((clamp (jsRound (center * (1 + amount * 4) - amount * (left + right + top + bottom)))
          0 255 : ℤ) : ℚ)) (height * width) s1
    (o, s2)

/-! ### Preservation of the PixelBuffer invariant -/

theorem getD_map_range (n i : ℕ) (f : ℕ → α) (d : α) (h : i < n) :
    ((List.range n).map f).getD i d = f i := by
  rw [List.getD_eq_getElem _ d (by simpa using h)]
  simp

theorem getD_le_255 (l : List ℕ) (i : ℕ) (h : ∀ v ∈ l, v ≤ 255) : l.getD i 0 ≤ 255 := by
  rcases Nat.lt_or_ge i l.length with hi | hi
  · rw [List.getD_eq_getElem _ _ hi]
    exact h _ (List.getElem_mem hi)
  · rw [getD_of_length_le _ _ _ hi]
    omega

theorem clamp_toNat_le_255 (z : ℤ) : (clamp z 0 255).toNat ≤ 255 := by
  unfold clamp
  omega

theorem fillPixels_forall (P : α → Prop) (n : ℕ) (F : ℕ → ℕ → α) (init : List α)
    (hinit : ∀ v ∈ init, P v) (hF : ∀ p c, P (F p c)) :
    ∀ v ∈ fillPixels n F init, P v := by
  suffices hgen : ∀ (l : List ℕ) (s : List α), (∀ v ∈ s, P v) →
      ∀ v ∈ l.foldl (writePixel F) s, P v by
    exact hgen (List.range n) init hinit
  intro l
  induction l with
  | nil => intro s hs; exact hs
  | cons a l ih =>
    intro s hs
    refine ih _ ?_
    intro v hv
    unfold writePixel at hv
    rcases List.mem_or_eq_of_mem_set hv with hv | rfl
    · rcases List.mem_or_eq_of_mem_set hv with hv | rfl
      · rcases List.mem_or_eq_of_mem_set hv with hv | rfl
        · rcases List.mem_or_eq_of_mem_set hv with hv | rfl
          · exact hs v hv
          · exact hF a 0
        · exact hF a 1
      · exact hF a 2
    · exact hF a 3

theorem sharpOutF_le_255 (img : ImageData) (amount : ℚ) (p c : ℕ)
    (h : ∀ v ∈ img.data, v ≤ 255) : sharpOutF img amount p c ≤ 255 := by
  unfold sharpOutF
  split_ifs with hc
  · exact getD_le_255 _ _ h
  · exact clamp_toNat_le_255 _

theorem gaussianBlur_wellFormed (img : ImageData) (size : ℕ) (sigma : ℝ)
    (h : WellFormed img) : WellFormed (gaussianBlur img size sigma) := by
  constructor
  · show (fillPixels (img.height * img.width) (blurOutF img size sigma)
      (List.replicate img.data.length 0)).length = 4 * (img.height * img.width)
    rw [fillPixels_length, List.length_replicate]
    exact h.1
  · intro v hv
    refine fillPixels_forall (fun v => v ≤ 255) _ _ _ ?_ ?_ v hv
    · intro v hv2
      rw [List.eq_of_mem_replicate hv2]
      omega
    · intro p c
      exact toUint8Clamp_le_255 _

theorem sharpenImage_wellFormed (img : ImageData) (amount : ℚ)
    (h : WellFormed img) : WellFormed (sharpenImage img amount) := by
  unfold sharpenImage
  split_ifs with ha
  · exact h
  · constructor
    · show (fillPixels (img.height * img.width) (sharpOutF img amount)
        (List.replicate img.data.length 0)).length = 4 * (img.height * img.width)
      rw [fillPixels_length, List.length_replicate]
      exact h.1
    · intro v hv
      refine fillPixels_forall (fun v => v ≤ 255) _ _ _ ?_ ?_ v hv
      · intro v hv2
        rw [List.eq_of_mem_replicate hv2]
        omega
      · intro p c
        exact sharpOutF_le_255 img amount p c h.2

theorem filterBody_wellFormed (orig : ImageData) (size : ℕ) (sharpen : ℚ) (sigma : ℝ)
    (h : WellFormed orig) : WellFormed (filterBody orig size sharpen sigma) := by
  unfold filterBody
  split_ifs with h1 h2 h3
  · exact sharpenImage_wellFormed _ sharpen (gaussianBlur_wellFormed orig size sigma h)
  · exact gaussianBlur_wellFormed orig size sigma h
  · exact sharpenImage_wellFormed _ sharpen h
  · exact h

/-! ### Concrete fixtures -/

/-- A 1-by-1 image whose single pixel is `[128, 128, 128, 255]`. -/
def img1 : ImageData := ⟨1, 1, [128, 128, 128, 255]⟩

/-- The 3-by-3 uniform gray image: all nine pixels `[128, 128, 128, 255]`. -/
def gray3 : ImageData :=
  ⟨3, 3, (List.range 36).map (fun s => if s % 4 = 3 then 255 else 128)⟩

/-- A one-array heap holding the samples of `img1`, as reals. -/
def store1 : Store ℝ := ⟨fun _ => [128, 128, 128, 255], 1⟩

/-- A one-array heap holding the samples of `img1`, as rationals. -/
def store1Q : Store ℚ := ⟨fun _ => [128, 128, 128, 255], 1⟩

/-- A UI state with `img1` loaded and no run in flight. -/
def state1 : UIState := ⟨some img1, none, none, false, ""⟩

/-! ### Claim C3 -/

/-- C3: for every positive odd `size` and every `sigma > 0`,
`buildKernel(size, sigma)` returns a kernel of length `size` whose weight
at offset `i ∈ [-radius, radius]` (`radius = size / 2`, stored at array
index `i + radius`) is `exp(-i^2 / (2 sigma^2))` divided by the sum of all
these weights, so the returned weights sum to 1.0 within 1e-5 (in the
real-number model the normalized sum is exactly 1). -/
theorem buildKernel_normalized (size : ℕ) (sigma : ℝ) (hodd : Odd size)
    (hsigma : 0 < sigma) :
    (buildKernel size sigma).1.length = size ∧
    (∀ i : ℤ, -(((size / 2 : ℕ) : ℤ)) ≤ i → i ≤ ((size / 2 : ℕ) : ℤ) →
      (buildKernel size sigma).1.getD (i + ((size / 2 : ℕ) : ℤ)).toNat 0 =
        Real.exp (-((i : ℝ) * (i : ℝ)) / (2 * (sigma * sigma))) /
          ∑ k ∈ Finset.Icc (-(((size / 2 : ℕ)) : ℤ)) ((size / 2 : ℕ) : ℤ),
            Real.exp (-((k : ℝ) * (k : ℝ)) / (2 * (sigma * sigma)))) ∧
    |(∑ j ∈ Finset.range size, (buildKernel size sigma).1.getD j 0) - 1| ≤ 1 / 100000 := by
  obtain ⟨r, hr⟩ := hodd
  have hsz : 2 * (size / 2) + 1 = size := by omega
  refine ⟨buildKernel_length size sigma, ?_, ?_⟩
  · intro i h1 h2
    have hj : (i + ((size / 2 : ℕ) : ℤ)).toNat < size := by omega
    rw [buildKernel_getD size sigma _ hj]
    have hnum : kernelWeight size sigma (i + ((size / 2 : ℕ) : ℤ)).toNat =
        Real.exp (-((i : ℝ) * (i : ℝ)) / (2 * (sigma * sigma))) := by
      have hicast : (((i + ((size / 2 : ℕ) : ℤ)).toNat : ℤ)) - ((size / 2 : ℕ) : ℤ) = i := by
        omega
      unfold kernelWeight gaussWeight
      rw [hicast]
    have hden : kernelWeightSum size sigma (2 * (size / 2) + 1) =
        ∑ k ∈ Finset.Icc (-(((size / 2 : ℕ)) : ℤ)) ((size / 2 : ℕ) : ℤ),
          Real.exp (-((k : ℝ) * (k : ℝ)) / (2 * (sigma * sigma))) := by
      rw [sum_Icc_eq_sum_range (size / 2)
        (fun k => Real.exp (-((k : ℝ) * (k : ℝ)) / (2 * (sigma * sigma))))]
      rfl
    rw [hnum, hden]
  · rw [buildKernel_sum_odd size sigma ⟨r, hr⟩]
    norm_num

theorem buildKernel_normalized_witness :
    Odd 3 ∧ (0 : ℝ) < 1 ∧ (buildKernel 3 1).1.length = 3 ∧
    |(∑ j ∈ Finset.range 3, (buildKernel 3 1).1.getD j 0) - 1| ≤ 1 / 100000 :=
  ⟨⟨1, rfl⟩, one_pos, (buildKernel_normalized 3 1 ⟨1, rfl⟩ one_pos).1,
   (buildKernel_normalized 3 1 ⟨1, rfl⟩ one_pos).2.2⟩

/-! ### Claim C10 -/

/-- C10: for every even `size ≥ 2`, `buildKernel(size, sigma)` allocates a
kernel array of length `size` while its loop computes `size + 1` weights
(offsets `-size/2 .. size/2`, array indices `0 .. size`); the final weight
is written at index `size`, past the end of the array, and silently
discarded, while the normalizing sum still includes it: every stored entry
is its raw weight divided by the sum of all `size + 1` weights
(`kernelWeightSum size sigma (size+1)`), and the stored weights sum to
strictly less than 1. -/
theorem buildKernel_even_deficit (size : ℕ) (sigma : ℝ) (heven : Even size)
    (h2 : 2 ≤ size) :
    (buildKernel size sigma).1.length = size ∧
    (∀ j < size, (buildKernel size sigma).1.getD j 0 =
      kernelWeight size sigma j / ∑ i ∈ Finset.range (size + 1), kernelWeight size sigma i) ∧
    (∑ j ∈ Finset.range size, (buildKernel size sigma).1.getD j 0) < 1 := by
  obtain ⟨m, hm⟩ := heven
  have hsz : 2 * (size / 2) + 1 = size + 1 := by omega
  have hpos : 0 < kernelWeightSum size sigma (size + 1) :=
    kernelWeightSum_pos size sigma (size + 1) (by omega)
  refine ⟨buildKernel_length size sigma, ?_, ?_⟩
  · intro j hj
    rw [buildKernel_getD size sigma j hj, hsz]
    rfl
  · calc ∑ j ∈ Finset.range size, (buildKernel size sigma).1.getD j 0
        = ∑ j ∈ Finset.range size,
            kernelWeight size sigma j / kernelWeightSum size sigma (size + 1) := by
          refine Finset.sum_congr rfl (fun j hj => ?_)
          rw [buildKernel_getD size sigma j (Finset.mem_range.mp hj), hsz]
      _ = (∑ j ∈ Finset.range size, kernelWeight size sigma j) /
            kernelWeightSum size sigma (size + 1) := by
          rw [Finset.sum_div]
      _ < 1 := by
          rw [div_lt_one hpos]
          have hW : 0 < kernelWeight size sigma size := kernelWeight_pos size sigma size
          have hsplit : kernelWeightSum size sigma (size + 1) =
              kernelWeightSum size sigma size + kernelWeight size sigma size := by
            unfold kernelWeightSum
            rw [Finset.sum_range_succ]
          have hself : kernelWeightSum size sigma size =
              ∑ j ∈ Finset.range size, kernelWeight size sigma j := rfl
          rw [hsplit, hself]
          linarith

theorem buildKernel_even_deficit_witness :
    Even 4 ∧ (buildKernel 4 1).1.length = 4 ∧
    (∑ j ∈ Finset.range 4, (buildKernel 4 1).1.getD j 0) < 1 :=
  ⟨⟨2, rfl⟩, (buildKernel_even_deficit 4 1 ⟨2, rfl⟩ (by omega)).1,
   (buildKernel_even_deficit 4 1 ⟨2, rfl⟩ (by omega)).2.2⟩

/-! ### Claim C4 -/

theorem runFilter_reduction (orig : ImageData) (cur disp : Option ImageData)
    (stat : String) (size : ℕ) (sharpen : ℚ) (exn : Option String) :
    runFilter ⟨some orig, cur, disp, false, stat⟩ size sharpen exn =
      if size ≤ 1 ∧ sharpen ≤ 0 then
        ⟨some orig, some orig, some orig, false, stat⟩
      else
        runFilterCallback ⟨some orig, cur, disp, true, "Filtering..."⟩
          orig size sharpen (formatKernel size) exn := rfl

theorem runFilterCallback_none_current (st : UIState) (orig : ImageData) (size : ℕ)
    (sharpen : ℚ) (sigma : ℝ) :
    (runFilterCallback st orig size sharpen sigma none).currentImageData =
      some (filterBody orig size sharpen sigma) := rfl

/-- C4: with an image loaded and no run in flight, `runFilter` re-displays
the original buffer itself (no allocation) when `kernelSize ≤ 1` and
`sharpenAmount ≤ 0`; otherwise it derives `sigma = max(0.15, size/6)` via
`formatKernel`, applies the blur iff `size > 1` (passing the buffer
through otherwise), applies the sharpen to the blur result iff
`sharpen > 0` (passing through otherwise), and stores that final buffer. -/
theorem runFilter_cases (st : UIState) (orig : ImageData) (size : ℕ) (sharpen : ℚ)
    (horig : st.originalImageData = some orig) (hproc : st.isProcessing = false) :
    formatKernel size = max (0.15 : ℝ) ((size : ℝ) / 6) ∧
    (size ≤ 1 → sharpen ≤ 0 →
      runFilter st size sharpen none =
        ⟨some orig, some orig, some orig, false, st.status⟩) ∧
    (1 < size → 0 < sharpen →
      (runFilter st size sharpen none).currentImageData =
        some (sharpenImage (gaussianBlur orig size (formatKernel size)) sharpen)) ∧
    (1 < size → sharpen ≤ 0 →
      (runFilter st size sharpen none).currentImageData =
        some (gaussianBlur orig size (formatKernel size))) ∧
    (size ≤ 1 → 0 < sharpen →
      (runFilter st size sharpen none).currentImageData =
        some (sharpenImage orig sharpen)) := by
  obtain ⟨o, cur, disp, proc, stat⟩ := st
  dsimp only at horig hproc ⊢
  subst horig
  subst hproc
  refine ⟨rfl, ?_, ?_, ?_, ?_⟩
  · intro h1 h2
    rw [runFilter_reduction, if_pos ⟨h1, h2⟩]
  · intro h1 h2
    rw [runFilter_reduction, if_neg (fun hc => absurd hc.1 (by omega))]
    rw [runFilterCallback_none_current]
    have hbody : filterBody orig size sharpen (formatKernel size) =
        sharpenImage (gaussianBlur orig size (formatKernel size)) sharpen := by
      unfold filterBody
      rw [if_pos h1, if_pos h2]
    rw [hbody]
  · intro h1 h2
    rw [runFilter_reduction, if_neg (fun hc => absurd hc.1 (by omega))]
    rw [runFilterCallback_none_current]
    have hbody : filterBody orig size sharpen (formatKernel size) =
        gaussianBlur orig size (formatKernel size) := by
      unfold filterBody
      rw [if_pos h1, if_neg (not_lt.mpr h2)]
    rw [hbody]
  · intro h1 h2
    rw [runFilter_reduction, if_neg (fun hc => absurd h2 (not_lt.mpr hc.2))]
    rw [runFilterCallback_none_current]
    have hbody : filterBody orig size sharpen (formatKernel size) =
        sharpenImage orig sharpen := by
      unfold filterBody
      rw [if_neg (show ¬(1 < size) by omega)]
      rw [if_pos h2]
    rw [hbody]

theorem runFilter_cases_witness :
    state1.originalImageData = some img1 ∧ state1.isProcessing = false ∧
    (runFilter state1 3 1 none).currentImageData =
      some (sharpenImage (gaussianBlur img1 3 (formatKernel 3)) 1) :=
  ⟨rfl, rfl, (runFilter_cases state1 img1 3 1 rfl rfl).2.2.1 (by omega) one_pos⟩

/-! ### Claim C8 -/

/-- C8: an exception raised during filtering is caught by the callback's
`try`/`catch` (modelled by the `exn` oracle): on failure the previously
displayed output and `currentImageData` are untouched and only the status
changes (recoverable, `isProcessing` cleared by `finally`); on success the
stored and displayed buffer is the fully computed pipeline output, which
is a well-formed buffer whenever the input is — never a partially written
one. -/
theorem runFilterCallback_failure_safe (st : UIState) (orig : ImageData) (size : ℕ)
    (sharpen : ℚ) (sigma : ℝ) (e : String) :
    ((runFilterCallback st orig size sharpen sigma (some e)).currentImageData =
        st.currentImageData ∧
     (runFilterCallback st orig size sharpen sigma (some e)).displayed = st.displayed ∧
     (runFilterCallback st orig size sharpen sigma (some e)).isProcessing = false) ∧
    ((runFilterCallback st orig size sharpen sigma none).currentImageData =
        some (filterBody orig size sharpen sigma) ∧
     (runFilterCallback st orig size sharpen sigma none).displayed =
        some (filterBody orig size sharpen sigma) ∧
     (runFilterCallback st orig size sharpen sigma none).isProcessing = false) ∧
    (WellFormed orig → WellFormed (filterBody orig size sharpen sigma)) :=
  ⟨⟨rfl, rfl, rfl⟩, ⟨rfl, rfl, rfl⟩, filterBody_wellFormed orig size sharpen sigma⟩

theorem runFilterCallback_failure_safe_witness :
    WellFormed img1 ∧ WellFormed (filterBody img1 3 1 (formatKernel 3)) ∧
    (runFilterCallback state1 img1 3 1 (formatKernel 3) (some "err")).currentImageData =
      state1.currentImageData := by
  have hwf : WellFormed img1 := by
    constructor
    · rfl
    · intro v hv
      fin_cases hv <;> omega
  exact ⟨hwf,
    (runFilterCallback_failure_safe state1 img1 3 1 (formatKernel 3) "err").2.2 hwf,
    (runFilterCallback_failure_safe state1 img1 3 1 (formatKernel 3) "err").1.1⟩

/-! ### Claim C6 -/

/-- C6: the sharpen stage leaves every alpha sample unchanged: for every
buffer, every amount and every pixel `p`, the output alpha sample equals
the input alpha sample. -/
theorem sharpenImage_alpha (img : ImageData) (amount : ℚ) (p : ℕ)
    (hp : p < img.height * img.width) :
    (sharpenImage img amount).data.getD (4 * p + 3) 0 =
      img.data.getD (4 * p + 3) 0 := by
  unfold sharpenImage
  split_ifs with ha
  · rfl
  · show (fillPixels (img.height * img.width) (sharpOutF img amount)
      (List.replicate img.data.length 0)).getD (4 * p + 3) 0 = _
    rcases Nat.lt_or_ge (4 * p + 3) img.data.length with hlen | hlen
    · rw [fillPixels_getD _ _ _ _ _ _ (by omega) hp
        (by rw [List.length_replicate]; exact hlen)]
      show img.data.getD ((p / img.width * img.width + p % img.width) * 4 + 3) 0 = _
      have hidx : (p / img.width * img.width + p % img.width) * 4 + 3 = 4 * p + 3 := by
        have hdm := Nat.div_add_mod' p img.width
        omega
      rw [hidx]
    · rw [getD_of_length_le _ _ _
        (by rw [fillPixels_length, List.length_replicate]; exact hlen)]
      rw [getD_of_length_le _ _ _ hlen]

theorem sharpenImage_alpha_witness :
    0 < img1.height * img1.width ∧
    (sharpenImage img1 2).data.getD (4 * 0 + 3) 0 = img1.data.getD (4 * 0 + 3) 0 :=
  ⟨by decide, sharpenImage_alpha img1 2 0 (by decide)⟩

/-! ### Claim C7 -/

theorem gaussianBlurS_fst (s0 : Store ℝ) (src width height size : ℕ) (sigma : ℝ) :
    (gaussianBlurS s0 src width height size sigma).1 = s0.next + 1 := by
  unfold gaussianBlurS
  dsimp only [allocA]
  rw [fillPixelsS_next]

theorem gaussianBlurS_arrays_src (s0 : Store ℝ) (src width height size : ℕ)
    (sigma : ℝ) (hsrc : src < s0.next) :
    (gaussianBlurS s0 src width height size sigma).2.arrays src = s0.arrays src := by
  unfold gaussianBlurS
  dsimp only [allocA]
  rw [fillPixelsS_next]
  dsimp only
  rw [fillPixelsS_arrays_ne _ _ _ _ _ (show src ≠ s0.next + 1 by omega)]
  dsimp only
  rw [if_neg (show ¬src = s0.next + 1 by omega)]
  rw [fillPixelsS_arrays_ne _ _ _ _ _ (show src ≠ s0.next by omega)]
  dsimp only
  rw [if_neg (show ¬src = s0.next by omega)]

theorem sharpenImageS_fst_pos (q0 : Store ℚ) (src width height : ℕ) (amount : ℚ)
    (h : 0 < amount) :
    (sharpenImageS q0 src width height amount).1 = q0.next := by
  unfold sharpenImageS
  rw [if_neg (not_le.mpr h)]
  rfl

theorem sharpenImageS_arrays_src (q0 : Store ℚ) (src width height : ℕ) (amount : ℚ)
    (hsrc : src < q0.next) :
    (sharpenImageS q0 src width height amount).2.arrays src = q0.arrays src := by
  unfold sharpenImageS
  split_ifs with ha
  · rfl
  · dsimp only [allocA]
    rw [fillPixelsS_arrays_ne _ _ _ _ _ (show src ≠ q0.next by omega)]
    dsimp only
    rw [if_neg (show ¬src = q0.next by omega)]

/-- C7 counterexample: with `amount = 0` the sharpen stage returns the
input buffer itself (the early `return imageData`), not a distinct new
buffer — the returned array id equals the input id — refuting the claim
that every stage returns a distinct new buffer for every parameter
value. -/
theorem sharpenImageS_zero_returns_input :
    (sharpenImageS store1Q 0 1 1 0).1 = 0 := rfl

/-- C7 (amended): neither stage ever mutates its input buffer — after
either stage runs, the input array's contents in the heap are unchanged
for every parameter value; the blur always returns a freshly allocated
distinct buffer, and the sharpen returns a freshly allocated distinct
buffer whenever `amount > 0` (for `amount ≤ 0` it returns the input
buffer itself, still unmutated). -/
theorem stages_preserve_input (s0 : Store ℝ) (q0 : Store ℚ)
    (src width height size : ℕ) (sigma : ℝ) (amount : ℚ)
    (hsrc : src < s0.next) (hsrcq : src < q0.next) :
    ((gaussianBlurS s0 src width height size sigma).2.arrays src = s0.arrays src ∧
     (gaussianBlurS s0 src width height size sigma).1 ≠ src) ∧
    ((sharpenImageS q0 src width height amount).2.arrays src = q0.arrays src ∧
     (0 < amount → (sharpenImageS q0 src width height amount).1 ≠ src)) := by
  refine ⟨⟨gaussianBlurS_arrays_src s0 src width height size sigma hsrc, ?_⟩,
    ⟨sharpenImageS_arrays_src q0 src width height amount hsrcq, ?_⟩⟩
  · rw [gaussianBlurS_fst]
    omega
  · intro ha
    rw [sharpenImageS_fst_pos q0 src width height amount ha]
    omega

theorem stages_preserve_input_witness :
    0 < store1.next ∧ 0 < store1Q.next ∧
    (gaussianBlurS store1 0 1 1 3 1).2.arrays 0 = store1.arrays 0 ∧
    (gaussianBlurS store1 0 1 1 3 1).1 ≠ 0 ∧
    (sharpenImageS store1Q 0 1 1 1).2.arrays 0 = store1Q.arrays 0 ∧
    (sharpenImageS store1Q 0 1 1 1).1 ≠ 0 :=
  ⟨by decide, by decide,
   (stages_preserve_input store1 store1Q 0 1 1 3 1 1 (by decide) (by decide)).1.1,
   (stages_preserve_input store1 store1Q 0 1 1 3 1 1 (by decide) (by decide)).1.2,
   (stages_preserve_input store1 store1Q 0 1 1 3 1 1 (by decide) (by decide)).2.1,
   (stages_preserve_input store1 store1Q 0 1 1 3 1 1 (by decide) (by decide)).2.2 one_pos⟩

/-! ### Claim C2 -/

theorem pixel_div (w y x : ℕ) (hx : x < w) : (y * w + x) / w = y := by
  rw [Nat.add_comm, Nat.mul_comm, Nat.add_mul_div_left x y (show 0 < w by omega)]
  rw [Nat.div_eq_of_lt hx]
  omega

theorem pixel_mod (w y x : ℕ) (hx : x < w) : (y * w + x) % w = x := by
  rw [Nat.add_comm, Nat.mul_comm, Nat.add_mul_mod_self_left]
  exact Nat.mod_eq_of_lt hx

theorem pixel_lt (w h y x : ℕ) (hx : x < w) (hy : y < h) : y * w + x < h * w := by
  calc y * w + x < y * w + w := by omega
    _ = (y + 1) * w := by ring
    _ ≤ h * w := Nat.mul_le_mul_right w (by omega)

/-- C2: for every well-formed buffer and every `amount > 0`, the sharpen
output at pixel `(x, y)` and color channel `c < 3` (not alpha) is exactly
the spec formula `center*(1 + 4*amount) - amount*(left+right+top+bottom)`
with 4-connected neighbors under clamp-to-edge, rounded to the nearest
integer and clamped to `[0, 255]`; width and height are preserved. -/
theorem sharpenImage_formula (img : ImageData) (amount : ℚ) (ha : 0 < amount)
    (hWF : img.data.length = 4 * (img.height * img.width))
    (x y c : ℕ) (hx : x < img.width) (hy : y < img.height) (hc : c < 3) :
    (sharpenImage img amount).width = img.width ∧
    (sharpenImage img amount).height = img.height ∧
    (sharpenImage img amount).data.getD ((y * img.width + x) * 4 + c) 0 =
      specSharpValue img amount x y c := by
  have hred : sharpenImage img amount =
      ⟨img.width, img.height,
       fillPixels (img.height * img.width) (sharpOutF img amount)
         (List.replicate img.data.length 0)⟩ := by
    unfold sharpenImage
    rw [if_neg (not_le.mpr ha)]
  refine ⟨by rw [hred], by rw [hred], ?_⟩
  rw [hred]
  show (fillPixels (img.height * img.width) (sharpOutF img amount)
    (List.replicate img.data.length 0)).getD ((y * img.width + x) * 4 + c) 0 = _
  have hplt : y * img.width + x < img.height * img.width :=
    pixel_lt img.width img.height y x hx hy
  have hidx : (y * img.width + x) * 4 + c = 4 * (y * img.width + x) + c := by omega
  rw [hidx]
  rw [fillPixels_getD _ _ _ _ _ _ (by omega) hplt
    (by rw [List.length_replicate, hWF]; omega)]
  have hdiv : (y * img.width + x) / img.width = y := pixel_div img.width y x hx
  have hmod : (y * img.width + x) % img.width = x := pixel_mod img.width y x hx
  unfold sharpOutF
  dsimp only
  rw [hdiv, hmod]
  rw [if_neg (show ¬c = 3 by omega)]
  unfold specSharpValue
  dsimp only
  rw [clamp_toNat_eq_specClampIdx ((x : ℤ) - 1) img.width,
      clamp_toNat_eq_specClampIdx ((x : ℤ) + 1) img.width,
      clamp_toNat_eq_specClampIdx ((y : ℤ) - 1) img.height,
      clamp_toNat_eq_specClampIdx ((y : ℤ) + 1) img.height]
  rw [show (1 + amount * 4 : ℚ) = 1 + 4 * amount from by ring]
  rfl

theorem sharpenImage_formula_witness :
    (0 : ℚ) < 1 ∧ img1.data.length = 4 * (img1.height * img1.width) ∧
    (sharpenImage img1 1).data.getD ((0 * img1.width + 0) * 4 + 0) 0 =
      specSharpValue img1 1 0 0 0 :=
  ⟨one_pos, by decide,
   (sharpenImage_formula img1 1 one_pos (by decide) 0 0 0 (by decide) (by decide)
     (by decide)).2.2⟩

/-! ### Blur evaluation infrastructure -/

theorem blurTemp_getD (img : ImageData) (size : ℕ) (sigma : ℝ) (q c : ℕ)
    (hq : q < img.height * img.width) (hc : c < 4)
    (hlen : 4 * q + c < img.data.length) :
    (blurTemp img size sigma).getD (4 * q + c) 0 = blurTempF img size sigma q c := by
  unfold blurTemp
  exact fillPixels_getD _ _ _ _ _ _ hc hq (by rw [List.length_replicate]; exact hlen)

theorem gaussianBlur_getD (img : ImageData) (size : ℕ) (sigma : ℝ) (q c : ℕ)
    (hq : q < img.height * img.width) (hc : c < 4)
    (hlen : 4 * q + c < img.data.length) :
    (gaussianBlur img size sigma).data.getD (4 * q + c) 0 = blurOutF img size sigma q c := by
  show (fillPixels (img.height * img.width) (blurOutF img size sigma)
    (List.replicate img.data.length 0)).getD (4 * q + c) 0 = _
  exact fillPixels_getD _ _ _ _ _ _ hc hq (by rw [List.length_replicate]; exact hlen)

theorem gaussianBlur_data_length (img : ImageData) (size : ℕ) (sigma : ℝ) :
    (gaussianBlur img size sigma).data.length = img.data.length := by
  show (fillPixels (img.height * img.width) (blurOutF img size sigma)
    (List.replicate img.data.length 0)).length = _
  rw [fillPixels_length, List.length_replicate]

theorem ImageData_ext (a b : ImageData) (hw : a.width = b.width)
    (hh : a.height = b.height) (hlen : a.data.length = b.data.length)
    (hdata : ∀ i, i < a.data.length → a.data.getD i 0 = b.data.getD i 0) : a = b := by
  obtain ⟨w1, h1, d1⟩ := a
  obtain ⟨w2, h2, d2⟩ := b
  dsimp only at hw hh hlen hdata
  subst hw
  subst hh
  congr 1
  apply List.ext_getElem hlen
  intro i hi1 hi2
  have hi := hdata i hi1
  rwa [List.getD_eq_getElem _ _ hi1, List.getD_eq_getElem _ _ hi2] at hi

theorem convSum_radius_zero (kern : List ℝ) (sample : ℤ → ℝ) :
    convSum kern 0 sample = sample 0 * kern.getD 0 0 := by
  rw [convSum_eq_sum]
  rw [show 2 * 0 + 1 = 1 from rfl, Finset.sum_range_one]
  norm_num

theorem toUint8Clamp_zero : toUint8Clamp 0 = 0 := by
  unfold toUint8Clamp
  rw [if_pos le_rfl]

/-! ### Claim C5 -/

theorem buildKernel_one_getD (sigma : ℝ) : (buildKernel 1 sigma).1.getD 0 0 = 1 := by
  rw [buildKernel_getD 1 sigma 0 (by omega)]
  rw [show 2 * ((1 : ℕ) / 2) + 1 = 1 from rfl]
  have hw : kernelWeight 1 sigma 0 = 1 := by
    unfold kernelWeight gaussWeight
    norm_num
  have hs : kernelWeightSum 1 sigma 1 = 1 := by
    unfold kernelWeightSum
    rw [Finset.sum_range_one, hw]
  rw [hw, hs]
  norm_num

theorem blurTempF_one (img : ImageData) (sigma : ℝ) (p c : ℕ)
    (hp : p < img.height * img.width) :
    blurTempF img 1 sigma p c = ((img.data.getD (4 * p + c) 0 : ℕ) : ℝ) := by
  have hw0 : 0 < img.width := by
    rcases Nat.eq_zero_or_pos img.width with h0 | h0
    · rw [h0, Nat.mul_zero] at hp
      omega
    · exact h0
  unfold blurTempF
  rw [buildKernel_radius, show (1 : ℕ) / 2 = 0 from rfl]
  rw [convSum_radius_zero]
  dsimp only
  have hpx : (clamp (((p % img.width : ℕ) : ℤ) + 0) 0 ((img.width : ℤ) - 1)).toNat =
      p % img.width := by
    have hmod : p % img.width < img.width := Nat.mod_lt p hw0
    unfold clamp
    omega
  rw [hpx]
  have hidx : (p / img.width * img.width + p % img.width) * 4 + c = 4 * p + c := by
    have hdm := Nat.div_add_mod' p img.width
    omega
  rw [hidx]
  rw [buildKernel_one_getD, mul_one]

theorem blurOutF_one (img : ImageData) (sigma : ℝ) (p c : ℕ)
    (hp : p < img.height * img.width) (hc : c < 4)
    (hlen : img.data.length = 4 * (img.height * img.width)) :
    blurOutF img 1 sigma p c = toUint8Clamp ((img.data.getD (4 * p + c) 0 : ℕ) : ℝ) := by
  have hw0 : 0 < img.width := by
    rcases Nat.eq_zero_or_pos img.width with h0 | h0
    · rw [h0, Nat.mul_zero] at hp
      omega
    · exact h0
  have hy : p / img.width < img.height := by
    rw [Nat.div_lt_iff_lt_mul hw0]
    exact hp
  unfold blurOutF
  rw [buildKernel_radius, show (1 : ℕ) / 2 = 0 from rfl]
  rw [convSum_radius_zero]
  dsimp only
  have hpy : (clamp (((p / img.width : ℕ) : ℤ) + 0) 0 ((img.height : ℤ) - 1)).toNat =
      p / img.width := by
    unfold clamp
    generalize hgen : p / img.width = yy at hy ⊢
    omega
  rw [hpy]
  have hidx : (p / img.width * img.width + p % img.width) * 4 + c = 4 * p + c := by
    have hdm := Nat.div_add_mod' p img.width
    omega
  rw [hidx]
  rw [blurTemp_getD img 1 sigma p c hp hc (by omega)]
  rw [blurTempF_one img sigma p c hp]
  rw [buildKernel_one_getD, mul_one]

/-- C5 counterexample: calling `gaussianBlur` directly with `size = 0`
(a value of `size ≤ 1`) does not return the input unchanged: the kernel
array is empty, every kernel read misses, and every output sample becomes
0 — here on the 1-by-1 gray image the output differs from the input. -/
theorem gaussianBlur_size_zero_not_id : gaussianBlur img1 0 1 ≠ img1 := by
  intro h
  have hg : (gaussianBlur img1 0 1).data.getD 0 0 = img1.data.getD 0 0 := by rw [h]
  have hk : (buildKernel 0 1).1 = [] := by
    rw [buildKernel_eq]
    rfl
  have h00 : (gaussianBlur img1 0 1).data.getD 0 0 = 0 := by
    have hfp := gaussianBlur_getD img1 0 1 0 0 (by decide) (by omega) (by decide)
    rw [show 4 * 0 + 0 = 0 from rfl] at hfp
    rw [hfp]
    unfold blurOutF
    rw [buildKernel_radius, show (0 : ℕ) / 2 = 0 from rfl]
    rw [convSum_radius_zero, hk]
    rw [show ([] : List ℝ).getD 0 0 = 0 from rfl, mul_zero]
    exact toUint8Clamp_zero
  rw [h00] at hg
  have h128 : img1.data.getD 0 0 = 128 := rfl
  rw [h128] at hg
  omega

/-- C5 (amended): `gaussianBlur` has no early return for small sizes, but
with `size = 1` — the only positive size `≤ 1` — and `sigma > 0` the
kernel is the singleton `[1]` and the output is sample-for-sample
identical to any well-formed input; with `size = 0` the output is the
all-zero buffer (see the counterexample), so the no-op contract holds
only at `size = 1`. -/
theorem gaussianBlur_size_one_id (img : ImageData) (sigma : ℝ) (hsigma : 0 < sigma)
    (hWF : WellFormed img) : gaussianBlur img 1 sigma = img := by
  obtain ⟨hlen, hbound⟩ := hWF
  refine ImageData_ext _ _ rfl rfl (gaussianBlur_data_length img 1 sigma) ?_
  intro s hs2
  rw [gaussianBlur_data_length img 1 sigma] at hs2
  have hs3 : s < 4 * (img.height * img.width) := by rw [← hlen]; exact hs2
  have hp : s / 4 < img.height * img.width := by omega
  have hc : s % 4 < 4 := by omega
  have hsplit : s = 4 * (s / 4) + s % 4 := by omega
  rw [hsplit]
  rw [gaussianBlur_getD img 1 sigma (s / 4) (s % 4) hp hc (by omega)]
  rw [blurOutF_one img sigma (s / 4) (s % 4) hp hc hlen]
  exact toUint8Clamp_natCast _ (getD_le_255 _ _ hbound)

theorem gaussianBlur_size_one_id_witness :
    (0 : ℝ) < 1 ∧ WellFormed img1 ∧ gaussianBlur img1 1 1 = img1 := by
  have hwf : WellFormed img1 := by
    constructor
    · rfl
    · intro v hv
      fin_cases hv <;> omega
  exact ⟨one_pos, hwf, gaussianBlur_size_one_id img1 1 one_pos hwf⟩

/-! ### Claim C9 -/

theorem gray3_width : gray3.width = 3 := rfl

theorem gray3_height : gray3.height = 3 := rfl

theorem gray3_len : gray3.data.length = 36 := by
  simp [gray3]

theorem gray3_hw : gray3.height * gray3.width = 9 := rfl

theorem clamp_toNat_lt (i : ℤ) (n : ℕ) (hn : 0 < n) :
    (clamp i 0 ((n : ℤ) - 1)).toNat < n := by
  unfold clamp
  omega

theorem gray3_sample (q c : ℕ) (hq : q < 9) (hc : c < 4) :
    gray3.data.getD (4 * q + c) 0 = if c = 3 then 255 else 128 := by
  show ((List.range 36).map (fun s => if s % 4 = 3 then 255 else 128)).getD (4 * q + c) 0 = _
  rw [getD_map_range 36 (4 * q + c) _ 0 (by omega)]
  have hm : (4 * q + c) % 4 = c := by omega
  rw [hm]

theorem gray3_row_sample (y px c : ℕ) (hy : y < 3) (hpx : px < 3) (hc : c < 4) :
    gray3.data.getD ((y * 3 + px) * 4 + c) 0 = if c = 3 then 255 else 128 := by
  have h9 : y * 3 + px < 9 := by omega
  have hidx : (y * 3 + px) * 4 + c = 4 * (y * 3 + px) + c := by omega
  rw [hidx]
  exact gray3_sample (y * 3 + px) c h9 hc

theorem blurTempF_gray3 (size : ℕ) (sigma : ℝ) (hodd : Odd size) (q c : ℕ)
    (hq : q < 9) (hc : c < 4) :
    blurTempF gray3 size sigma q c = ((if c = 3 then 255 else 128 : ℕ) : ℝ) := by
  obtain ⟨r0, hr0⟩ := hodd
  have hsz : 2 * (size / 2) + 1 = size := by omega
  unfold blurTempF
  rw [buildKernel_radius]
  rw [convSum_eq_sum]
  have hstep : ∀ j ∈ Finset.range (2 * (size / 2) + 1),
      (fun k =>
        let y := q / gray3.width
        let x := q % gray3.width
        let px := (clamp ((x : ℤ) + k) 0 ((gray3.width : ℤ) - 1)).toNat
        ((gray3.data.getD ((y * gray3.width + px) * 4 + c) 0 : ℕ) : ℝ))
          ((j : ℤ) - ((size / 2 : ℕ) : ℤ)) * (buildKernel size sigma).1.getD j 0 =
        ((if c = 3 then 255 else 128 : ℕ) : ℝ) * (buildKernel size sigma).1.getD j 0 := by
    intro j hj
    dsimp only
    simp only [gray3_width]
    rw [gray3_row_sample (q / 3) _ c (by omega)
      (clamp_toNat_lt _ 3 (by omega)) hc]
  rw [Finset.sum_congr rfl hstep]
  rw [← Finset.mul_sum]
  rw [hsz]
  rw [buildKernel_sum_odd size sigma ⟨r0, hr0⟩, mul_one]

theorem blurTemp_gray3_at (size : ℕ) (sigma : ℝ) (hodd : Odd size) (py x c : ℕ)
    (hpy : py < 3) (hx : x < 3) (hc : c < 4) :
    (blurTemp gray3 size sigma).getD ((py * 3 + x) * 4 + c) 0 =
      ((if c = 3 then 255 else 128 : ℕ) : ℝ) := by
  have h9 : py * 3 + x < 9 := by omega
  have hidx : (py * 3 + x) * 4 + c = 4 * (py * 3 + x) + c := by omega
  rw [hidx]
  rw [blurTemp_getD gray3 size sigma (py * 3 + x) c (by rw [gray3_hw]; exact h9) hc
    (by rw [gray3_len]; omega)]
  exact blurTempF_gray3 size sigma hodd (py * 3 + x) c h9 hc

theorem blurOutF_gray3 (size : ℕ) (sigma : ℝ) (hodd : Odd size) (q c : ℕ)
    (hq : q < 9) (hc : c < 4) :
    blurOutF gray3 size sigma q c = (if c = 3 then 255 else 128) := by
  obtain ⟨r0, hr0⟩ := hodd
  have hsz : 2 * (size / 2) + 1 = size := by omega
  unfold blurOutF
  rw [buildKernel_radius]
  rw [convSum_eq_sum]
  have hstep : ∀ j ∈ Finset.range (2 * (size / 2) + 1),
      (fun k =>
        let y := q / gray3.width
        let x := q % gray3.width
        let py := (clamp ((y : ℤ) + k) 0 ((gray3.height : ℤ) - 1)).toNat
        (blurTemp gray3 size sigma).getD ((py * gray3.width + x) * 4 + c) 0)
          ((j : ℤ) - ((size / 2 : ℕ) : ℤ)) * (buildKernel size sigma).1.getD j 0 =
        ((if c = 3 then 255 else 128 : ℕ) : ℝ) * (buildKernel size sigma).1.getD j 0 := by
    intro j hj
    dsimp only
    simp only [gray3_width, gray3_height]
    rw [blurTemp_gray3_at size sigma ⟨r0, hr0⟩ _ _ c
      (clamp_toNat_lt _ 3 (by omega)) (by omega) hc]
  rw [Finset.sum_congr rfl hstep]
  rw [← Finset.mul_sum]
  rw [hsz]
  rw [buildKernel_sum_odd size sigma ⟨r0, hr0⟩, mul_one]
  exact toUint8Clamp_natCast _ (by split <;> omega)

/-- C9: blurring the 3-by-3 uniform gray image (all pixels
`[128, 128, 128, 255]`) with any valid (odd) kernel size and the derived
`sigma = max(0.15, size/6)` returns exactly the same image: a uniform
input is a fixed point of the blur, through kernel normalization and both
accumulation passes. -/
theorem gaussianBlur_gray3_fixed (size : ℕ) (hodd : Odd size) :
    gaussianBlur gray3 size (formatKernel size) = gray3 := by
  refine ImageData_ext _ _ rfl rfl ?_ ?_
  · rw [gaussianBlur_data_length]
  · intro s hs
    rw [gaussianBlur_data_length, gray3_len] at hs
    have hp : s / 4 < 9 := by omega
    have hc : s % 4 < 4 := by omega
    have hsplit : s = 4 * (s / 4) + s % 4 := by omega
    rw [hsplit]
    rw [gaussianBlur_getD gray3 size (formatKernel size) (s / 4) (s % 4)
      (by rw [gray3_hw]; exact hp) hc (by rw [gray3_len]; omega)]
    rw [blurOutF_gray3 size (formatKernel size) hodd (s / 4) (s % 4) hp hc]
    rw [gray3_sample (s / 4) (s % 4) hp hc]

theorem gaussianBlur_gray3_fixed_witness :
    Odd 3 ∧ gaussianBlur gray3 3 (formatKernel 3) = gray3 :=
  ⟨⟨1, rfl⟩, gaussianBlur_gray3_fixed 3 ⟨1, rfl⟩⟩

/-! ### Claim C1 -/

theorem specClampIdx_lt (i : ℤ) (n : ℕ) (hn : 0 < n) : specClampIdx i n < n := by
  unfold specClampIdx
  split_ifs <;> omega

theorem blurTempF_eq_spec (img : ImageData) (size : ℕ) (sigma : ℝ) (yy x c : ℕ)
    (hx : x < img.width) :
    blurTempF img size sigma (yy * img.width + x) c =
      specBlurTemp img (buildKernel size sigma).1 (buildKernel size sigma).2 x yy c := by
  unfold blurTempF specBlurTemp
  rw [buildKernel_radius]
  rw [convSum_eq_sum]
  rw [sum_Icc_eq_sum_range (size / 2)]
  refine Finset.sum_congr rfl ?_
  intro j hj
  dsimp only
  rw [pixel_div img.width yy x hx, pixel_mod img.width yy x hx]
  rw [clamp_toNat_eq_specClampIdx]
  have htn : (((j : ℤ) - ((size / 2 : ℕ) : ℤ)) + ((size / 2 : ℕ) : ℤ)).toNat = j := by
    omega
  rw [htn]
  rw [mul_comm]

theorem blurTemp_eq_specTemp (img : ImageData) (size : ℕ) (sigma : ℝ) (yy x c : ℕ)
    (hy : yy < img.height) (hx : x < img.width) (hc : c < 4)
    (hWF : img.data.length = 4 * (img.height * img.width)) :
    (blurTemp img size sigma).getD ((yy * img.width + x) * 4 + c) 0 =
      specBlurTemp img (buildKernel size sigma).1 (buildKernel size sigma).2 x yy c := by
  have hq : yy * img.width + x < img.height * img.width :=
    pixel_lt img.width img.height yy x hx hy
  have hidx : (yy * img.width + x) * 4 + c = 4 * (yy * img.width + x) + c := by omega
  rw [hidx, blurTemp_getD img size sigma _ c hq hc (by omega)]
  exact blurTempF_eq_spec img size sigma yy x c hx

/-- C1: for every well-formed buffer, every `size > 1` and every
`sigma > 0`, `gaussianBlur` is exactly the two-pass separable convolution
described by the spec (`specBlur`, written from the spec wording): one
kernel built by `buildKernel`, pass 1 convolving each row along x into a
floating-point intermediate of the same shape, pass 2 convolving that
intermediate along y before the single 8-bit write-back, and in both
passes every sample index outside `[0, width-1]` resp. `[0, height-1]`
clamped to the nearest valid index (no wraparound, no zero-padding). -/
theorem gaussianBlur_two_pass_clamped (img : ImageData) (size : ℕ) (sigma : ℝ)
    (hsize : 1 < size) (hsigma : 0 < sigma)
    (hWF : img.data.length = 4 * (img.height * img.width)) :
    gaussianBlur img size sigma = specBlur img size sigma := by
  refine ImageData_ext _ _ rfl rfl ?_ ?_
  · rw [gaussianBlur_data_length, hWF]
    show _ = ((List.range (4 * (img.height * img.width))).map _).length
    rw [List.length_map, List.length_range]
  · intro s hs
    rw [gaussianBlur_data_length, hWF] at hs
    have hp : s / 4 < img.height * img.width := by omega
    have hc : s % 4 < 4 := by omega
    have hw0 : 0 < img.width := by
      rcases Nat.eq_zero_or_pos img.width with h0 | h0
      · rw [h0, Nat.mul_zero] at hp
        omega
      · exact h0
    have hh0 : 0 < img.height := by
      rcases Nat.eq_zero_or_pos img.height with h0 | h0
      · rw [h0, Nat.zero_mul] at hp
        omega
      · exact h0
    have hsplit : s = 4 * (s / 4) + s % 4 := by omega
    have hxw : s / 4 % img.width < img.width := Nat.mod_lt _ hw0
    have hyh : s / 4 / img.width < img.height := by
      rw [Nat.div_lt_iff_lt_mul hw0]
      exact hp
    rw [hsplit]
    rw [gaussianBlur_getD img size sigma (s / 4) (s % 4) hp hc (by omega)]
    show blurOutF img size sigma (s / 4) (s % 4) =
      ((List.range (4 * (img.height * img.width))).map _).getD (4 * (s / 4) + s % 4) 0
    rw [getD_map_range _ (4 * (s / 4) + s % 4) _ 0 (by omega)]
    dsimp only
    have hdiv4 : (4 * (s / 4) + s % 4) / 4 = s / 4 := by omega
    have hmod4 : (4 * (s / 4) + s % 4) % 4 = s % 4 := by omega
    rw [hdiv4, hmod4]
    unfold blurOutF
    rw [buildKernel_radius]
    congr 1
    rw [convSum_eq_sum]
    rw [sum_Icc_eq_sum_range (size / 2)]
    refine Finset.sum_congr rfl ?_
    intro j hj
    dsimp only
    rw [clamp_toNat_eq_specClampIdx]
    have htn : (((j : ℤ) - ((size / 2 : ℕ) : ℤ)) + ((size / 2 : ℕ) : ℤ)).toNat = j := by
      omega
    rw [htn]
    rw [blurTemp_eq_specTemp img size sigma
      (specClampIdx (((s / 4 / img.width : ℕ) : ℤ) + ((j : ℤ) - ((size / 2 : ℕ) : ℤ)))
        img.height)
      (s / 4 % img.width) (s % 4)
      (specClampIdx_lt _ img.height hh0) hxw hc hWF]
    rw [buildKernel_radius]
    rw [mul_comm]

theorem gaussianBlur_two_pass_clamped_witness :
    1 < 3 ∧ (0 : ℝ) < 1 ∧ img1.data.length = 4 * (img1.height * img1.width) ∧
    gaussianBlur img1 3 1 = specBlur img1 3 1 :=
  ⟨by omega, one_pos, by decide,
   gaussianBlur_two_pass_clamped img1 3 1 (by omega) one_pos (by decide)⟩

end App
